import Mathlib

/-!
Shallow embedding of rpad.core.distributed (src/src/rpad/core/distributed.py):
a bounded-parallelism task runner.  Python dictionaries of keyword arguments
are modelled as association lists, numpy SeedSequence spawning as a pure
function of the master seed and the spawn index, exceptions as Except, and
the side effects of a run (in-place kwargs mutation, slot-queue puts, hook
invocation counts) as explicit fields of the returned record.  Scheduling
nondeterminism (completion order of futures, which worker runs which task)
is an explicit parameter, so theorems quantify over it.
-/

namespace RpadCore

/-- Python keyword-argument dictionaries, modelled as association lists
(string key, first binding wins on lookup). -/
abbrev Kwargs (α : Type) := List (String × α)

/-- Membership test for a key: models Python `"seed" not in kwargs` (negated). -/
def dictHas {α : Type} (d : Kwargs α) (k : String) : Bool :=
  d.any (fun p => p.1 == k)

/-- Lookup of a key, first binding wins: models Python `kwargs[k]`. -/
def dictGet {α : Type} (d : Kwargs α) (k : String) : Option α :=
  match d with
  | [] => none
  | p :: rest => if p.1 == k then some p.2 else dictGet rest k

/-- A numpy SeedSequence as relevant here: its entropy (the master seed, or
harvested OS entropy when the caller passed None) and its spawn key.
`np.random.SeedSequence(seed).spawn(n)` yields children with spawn keys
`[0] .. [n-1]` and the parent entropy; a child seed is determined by the
pair (entropy, spawn key). -/
structure ChildSeed where
  entropy : Int
  spawnKey : List Nat
  deriving Repr, DecidableEq, Inhabited

/-- Models `np.random.SeedSequence(seed)`: when `seed` is None, the entropy is
harvested from the OS (`osEntropy`, a nondeterministic input of the run). -/
def mkSeedSequence (seed : Option Int) (osEntropy : Int) : ChildSeed :=
  { entropy := seed.getD osEntropy, spawnKey := [] }

/-- Models `ss.spawn(n)`: the i-th child appends `i` to the spawn key and keeps
the parent entropy. -/
def spawnSeeds (ss : ChildSeed) (n : Nat) : List ChildSeed :=
  (List.range n).map (fun i => { entropy := ss.entropy, spawnKey := ss.spawnKey ++ [i] })

/-- The seeds `distributed_eval` derives for a run:
`ss = np.random.SeedSequence(seed); child_seeds = ss.spawn(len(kwargs_list))`
(distributed.py lines 124-125). -/
def assignedSeeds (seed : Option Int) (osEntropy : Int) (n : Nat) : List ChildSeed :=
  spawnSeeds (mkSeedSequence seed osEntropy) n

/-- Models lines 51-52 of `_run_fn`:
`if "seed" not in kwargs: kwargs["seed"] = seed` (an in-place insertion). -/
def injectSeed {α : Type} (d : Kwargs α) (v : α) : Kwargs α :=
  if dictHas d "seed" then d else d ++ [("seed", v)]

/-- Everything observable about one `_run_fn` call: the returned pair
`(result, completed)`, the exception escaping the call (only a post-hook can
raise one), the kwargs dictionary after the call (it is mutated in place),
the seed received in `args`, the tokens put into the module-level `__queue`,
and how many times the pre/post hooks were invoked. -/
structure RunResult (α ε : Type) where
  result : Option α
  completed : Bool
  raised : Option ε
  kwargs : Kwargs α
  seedUsed : ChildSeed
  queuePuts : List Nat
  preCalls : Nat
  postCalls : Nat
  deriving Repr

/-- The error an optional hook raises, when one is supplied and raises. -/
def hookRaise {ε : Type} (hook : Option (Except ε Unit)) : Option ε :=
  match hook with
  | some (Except.error e) => some e
  | _ => none

/-- Shallow embedding of `_run_fn` (distributed.py lines 37-70).  The user
function `fn` is a pure map from the (merged) kwargs to a result or a raised
exception; `se` injects a ChildSeed into the dynamic value type `α` (Python is
untyped, so the seed object is stored directly under the "seed" key).
`pre_fn` may raise (caught by the try/except); `post_fn` runs outside the
try/except, so its exception escapes.  `workerCtx` is `__worker_num` when the
module-level `__queue` is set (inside a pool worker), `none` in the main
process, where `if __queue:` is false and nothing is put. -/
def _run_fn {α ε : Type} (se : ChildSeed → α) (fn : Kwargs α → Except ε α)
    (args : Kwargs α × ChildSeed)
    (pre_fn : Option (ChildSeed → Except ε Unit))
    (post_fn : Option (Except ε Unit))
    (workerCtx : Option Nat) : RunResult α ε :=
  let kwargs := args.1
  let seed := args.2
  let preRes : Except ε Unit :=
    match pre_fn with
    | some p => p seed
    | none => Except.ok ()
  let afterTry : Kwargs α × Option α × Bool :=
    match preRes with
    | Except.error _ => (kwargs, none, false)
    | Except.ok _ =>
      let kwargs2 := injectSeed kwargs (se seed)
      match fn kwargs2 with
      | Except.ok v => (kwargs2, some v, true)
      | Except.error _ => (kwargs2, none, false)
  let puts : List Nat :=
    match workerCtx with
    | some n => [n]
    | none => []
  { result := afterTry.2.1
    completed := afterTry.2.2
    raised := hookRaise post_fn
    kwargs := afterTry.1
    seedUsed := seed
    queuePuts := puts
    preCalls := match pre_fn with | some _ => 1 | none => 0
    postCalls := match post_fn with | some _ => 1 | none => 0 }

/-- Models lines 79-82 of `_init_proc`: the list of logical CPU ids the worker
pins itself to on Linux,
`procs = [s + (n * n_proc_per_worker + i) % N for i in range(n_proc_per_worker)]`
with `s = proc_start`, `n = worker_num`, `N = n_workers * n_proc_per_worker`. -/
def affinitySet (proc_start n_workers n_proc_per_worker worker_num : Nat) : List Nat :=
  let s := proc_start
  let n := worker_num
  let N := n_workers * n_proc_per_worker
  (List.range n_proc_per_worker).map (fun i => s + (n * n_proc_per_worker + i) % N)

/-- How `_init_proc` can fail: `q.get(timeout=5)` times out on an empty queue
(the SlotAcquisitionTimeout of the spec), or the user init hook raises. -/
inductive InitError (ε : Type) where
  | slotTimeout : InitError ε
  | initFail : ε → InitError ε
  deriving Repr

/-- The worker-local state `_init_proc` establishes: the slot id received from
the queue (stored in `__worker_num` for the process lifetime), the queue
contents after the single `q.get`, and the affinity list applied (None off
Linux, where the `sys.platform == "linux"` guard skips it). -/
structure InitOk where
  workerNum : Nat
  queueAfter : List Nat
  affinity : Option (List Nat)
  deriving Repr

/-- Shallow embedding of `_init_proc` (distributed.py lines 73-91).  The queue
is a FIFO list of slot tokens; `q.get(timeout=5)` takes the head or times out.
The affinity mask is computed and applied before the init hook runs; an init
hook exception propagates and aborts pool startup. -/
def _init_proc {ε : Type} (q : List Nat) (proc_start n_workers n_proc_per_worker : Nat)
    (isLinux : Bool) (init_fn : Option (Except ε Unit)) : Except (InitError ε) InitOk :=
  match q with
  | [] => Except.error InitError.slotTimeout
  | worker_num :: rest =>
    let aff : Option (List Nat) :=
      if isLinux then some (affinitySet proc_start n_workers n_proc_per_worker worker_num)
      else none
    match hookRaise init_fn with
    | some e => Except.error (InitError.initFail e)
    | none => Except.ok { workerNum := worker_num, queueAfter := rest, affinity := aff }

/-- The `_run_fn` call `distributed_eval` makes for input index `j`.  When
`n_workers == 0` (line 134) the call is `_run_fn(fn, (kwargs, child_seed))`:
no pre hook, no post hook, and `__queue` is unset in the main process.  On the
parallel path (line 162) the submitted callable is
`functools.partial(_run_fn, fn, pre_fn=pre_fn, post_fn=post_fn)` applied to
`(kwargs, child_seed)`, executed inside the worker `wassign j` (a
scheduling choice), whose `__queue`/`__worker_num` are set. -/
def taskOutcome {α ε : Type} (se : ChildSeed → α) (fn : Kwargs α → Except ε α)
    (kwargs_list : List (Kwargs α)) (seed : Option Int) (osEntropy : Int)
    (pre_fn : Option (ChildSeed → Except ε Unit)) (post_fn : Option (Except ε Unit))
    (n_workers : Nat) (wassign : Nat → Nat) (j : Nat) : RunResult α ε :=
  let child_seeds := assignedSeeds seed osEntropy kwargs_list.length
  let t := (kwargs_list.zip child_seeds).getD j ([], default)
  if n_workers = 0 then _run_fn se fn t none none none
  else _run_fn se fn t pre_fn post_fn (some (wassign j))

/-- The `for future in cf.as_completed(futures)` loop (lines 171-175): the
futures resolve in the (arbitrary) order `order`; `future.result()` re-raises
an exception that escaped the corresponding `_run_fn` call, aborting the loop;
otherwise the pair `(result, completed)` is recorded against the future's
input index in `result_dict`/`completed_dict` (modelled as one association
list, later entries shadowing none since indices are distinct). -/
def collectResults {α ε : Type} (outcome : Nat → RunResult α ε) :
    List Nat → List (Nat × (Option α × Bool)) → Except ε (List (Nat × (Option α × Bool)))
  | [], d => Except.ok d
  | j :: rest, d =>
    match (outcome j).raised with
    | some e => Except.error e
    | none => collectResults outcome rest ((j, ((outcome j).result, (outcome j).completed)) :: d)

/-- Shallow embedding of `distributed_eval` (distributed.py lines 94-179).
Scheduling nondeterminism is explicit: `order` is the order in which
`cf.as_completed` yields the futures (any permutation of `0..N-1`), and
`wassign j` is the worker that picked up task `j`.  On the parallel path an
exception from a worker initializer or escaping a `_run_fn` call (a raising
post hook) re-raises in the orchestrator at `future.result()` and propagates,
so the model returns `Except.error` there; otherwise the per-index dicts
`result_dict`/`completed_dict` are filled in completion order and read back in
input order (lines 169-178). -/
def distributed_eval {α ε : Type} (se : ChildSeed → α) (fn : Kwargs α → Except ε α)
    (kwargs_list : List (Kwargs α))
    (init_fn : Option (Except ε Unit))
    (pre_fn : Option (ChildSeed → Except ε Unit)) (post_fn : Option (Except ε Unit))
    (n_workers : Nat) (seed : Option Int) (osEntropy : Int)
    (order : List Nat) (wassign : Nat → Nat) :
    Except ε (List (Option α) × List Bool) :=
  let n := kwargs_list.length
  if n_workers = 0 then
    let outs := (List.range n).map
      (fun j => taskOutcome se fn kwargs_list seed osEntropy pre_fn post_fn 0 wassign j)
    Except.ok (outs.map RunResult.result, outs.map RunResult.completed)
  else
    match hookRaise init_fn with
    | some e => Except.error e
    | none =>
      let dicts : Except ε (List (Nat × (Option α × Bool))) :=
        collectResults
          (fun j => taskOutcome se fn kwargs_list seed osEntropy pre_fn post_fn n_workers wassign j)
          order []
      match dicts with
      | Except.error e => Except.error e
      | Except.ok d =>
        Except.ok
          ((List.range n).map (fun i => ((d.lookup i).getD (none, false)).1),
           (List.range n).map (fun i => ((d.lookup i).getD (none, false)).2))

/-- The kwargs dictionaries of the caller after a `n_workers == 0` run: the
synchronous path passes the caller's own dict objects to `_run_fn`, which
mutates them in place, so after the run the list element `i` is the `kwargs`
field of the i-th outcome.  (On the parallel path arguments are pickled to a
spawned process, so the caller's dicts are untouched.) -/
def syncFinalKwargs {α ε : Type} (se : ChildSeed → α) (fn : Kwargs α → Except ε α)
    (kwargs_list : List (Kwargs α)) (seed : Option Int) (osEntropy : Int) :
    List (Kwargs α) :=
  (List.range kwargs_list.length).map
    (fun j => (taskOutcome (ε := ε) se fn kwargs_list seed osEntropy none none 0 (fun _ => 0) j).kwargs)

/-- The lifetime trace of one pool worker: the slot id held (assigned once by
`_init_proc`, never reassigned), the tokens the worker put into the shared
queue, the queue contents once the worker has run all its tasks, and the
per-task run records. -/
structure WorkerTrace (α ε : Type) where
  workerNum : Nat
  puts : List Nat
  channelAfter : List Nat
  runs : List (RunResult α ε)

/-- A worker process from startup through a list of tasks: `_init_proc` runs
once (one `q.get`), then every task on this worker runs through `_run_fn` with
the worker globals `__worker_num`/`__queue` set; each `_run_fn` appends its
queue puts to the shared channel.  No other queue operation exists in the
source. -/
def workerLifecycle {α ε : Type} (se : ChildSeed → α) (fn : Kwargs α → Except ε α)
    (pre_fn : Option (ChildSeed → Except ε Unit)) (post_fn : Option (Except ε Unit))
    (q : List Nat) (proc_start n_workers n_proc_per_worker : Nat) (isLinux : Bool)
    (init_fn : Option (Except ε Unit))
    (tasks : List (Kwargs α × ChildSeed)) : Except (InitError ε) (WorkerTrace α ε) :=
  match _init_proc q proc_start n_workers n_proc_per_worker isLinux init_fn with
  | Except.error e => Except.error e
  | Except.ok st =>
    let runs := tasks.map (fun t => _run_fn se fn t pre_fn post_fn (some st.workerNum))
    let puts := runs.foldl (fun a r => a ++ r.queuePuts) []
    Except.ok
      { workerNum := st.workerNum
        puts := puts
        channelAfter := st.queueAfter ++ puts
        runs := runs }

/-- A supplied hook value that cannot raise (or no hook at all). -/
def noRaiseOpt {ε : Type} (o : Option (Except ε Unit)) : Prop :=
  ∀ e : ε, o ≠ some (Except.error e)

/-- A pre hook that never raises (or no pre hook at all). -/
def preBenign {ε : Type} (pre_fn : Option (ChildSeed → Except ε Unit)) : Prop :=
  ∀ p s, pre_fn = some p → p s = Except.ok ()

/-- The seed `distributed_eval` derives for input index `j`: the master
entropy with spawn key `[j]`. -/
def childSeedAt (seed : Option Int) (osEntropy : Int) (j : Nat) : ChildSeed :=
  { entropy := seed.getD osEntropy, spawnKey := [j] }

theorem hookRaise_eq_none {ε : Type} (post_fn : Option (Except ε Unit))
    (h : noRaiseOpt post_fn) : hookRaise post_fn = none := by
  cases post_fn with
  | none => rfl
  | some x =>
    cases x with
    | ok u => rfl
    | error e => exact absurd rfl (h e)

theorem run_fn_raised {α ε : Type} (se : ChildSeed → α) (fn : Kwargs α → Except ε α)
    (args : Kwargs α × ChildSeed) (pre_fn : Option (ChildSeed → Except ε Unit))
    (post_fn : Option (Except ε Unit)) (w : Option Nat) :
    (_run_fn se fn args pre_fn post_fn w).raised = hookRaise post_fn := rfl

theorem run_fn_seedUsed {α ε : Type} (se : ChildSeed → α) (fn : Kwargs α → Except ε α)
    (args : Kwargs α × ChildSeed) (pre_fn : Option (ChildSeed → Except ε Unit))
    (post_fn : Option (Except ε Unit)) (w : Option Nat) :
    (_run_fn se fn args pre_fn post_fn w).seedUsed = args.2 := rfl

theorem run_fn_of_preBenign {α ε : Type} (se : ChildSeed → α) (fn : Kwargs α → Except ε α)
    (kwargs : Kwargs α) (seed : ChildSeed) (pre_fn : Option (ChildSeed → Except ε Unit))
    (post_fn : Option (Except ε Unit)) (w : Option Nat) (hpre : preBenign pre_fn) :
    (_run_fn se fn (kwargs, seed) pre_fn post_fn w).result
      = (match fn (injectSeed kwargs (se seed)) with
         | Except.ok v => some v
         | Except.error _ => none) ∧
    (_run_fn se fn (kwargs, seed) pre_fn post_fn w).completed
      = (match fn (injectSeed kwargs (se seed)) with
         | Except.ok _ => true
         | Except.error _ => false) ∧
    (_run_fn se fn (kwargs, seed) pre_fn post_fn w).kwargs
      = injectSeed kwargs (se seed) := by
  have hp : (match pre_fn with
      | some p => p seed
      | none => Except.ok ()) = Except.ok () := by
    cases pre_fn with
    | none => rfl
    | some p => exact hpre p seed rfl
  cases hf : fn (injectSeed kwargs (se seed)) <;>
    simp [_run_fn, hp, hf]

theorem assignedSeeds_length (seed : Option Int) (osEntropy : Int) (n : Nat) :
    (assignedSeeds seed osEntropy n).length = n := by
  simp [assignedSeeds, spawnSeeds]

theorem assignedSeeds_getD (seed : Option Int) (osEntropy : Int) (n j : Nat)
    (d : ChildSeed) (h : j < n) :
    (assignedSeeds seed osEntropy n).getD j d = childSeedAt seed osEntropy j := by
  simp [assignedSeeds, spawnSeeds, mkSeedSequence, childSeedAt, List.getD,
    List.getElem?_map, List.getElem?_range, h]

theorem zip_getD {α β : Type} (l1 : List α) (l2 : List β) (i : Nat) (h1 : i < l1.length)
    (h2 : i < l2.length) (d : α × β) :
    (l1.zip l2).getD i d = (l1.getD i d.1, l2.getD i d.2) := by
  have hz : i < (l1.zip l2).length := by
    simp only [List.length_zip]
    omega
  rw [List.getD_eq_getElem _ _ hz, List.getElem_zip,
    List.getD_eq_getElem _ _ h1, List.getD_eq_getElem _ _ h2]

theorem taskOutcome_eq {α ε : Type} (se : ChildSeed → α) (fn : Kwargs α → Except ε α)
    (kwargs_list : List (Kwargs α)) (seed : Option Int) (osEntropy : Int)
    (pre_fn : Option (ChildSeed → Except ε Unit)) (post_fn : Option (Except ε Unit))
    (n_workers : Nat) (wassign : Nat → Nat) (j : Nat) (h : j < kwargs_list.length) :
    taskOutcome se fn kwargs_list seed osEntropy pre_fn post_fn n_workers wassign j
      = (if n_workers = 0 then
          _run_fn se fn (kwargs_list.getD j [], childSeedAt seed osEntropy j) none none none
        else
          _run_fn se fn (kwargs_list.getD j [], childSeedAt seed osEntropy j)
            pre_fn post_fn (some (wassign j))) := by
  have hlen : j < (assignedSeeds seed osEntropy kwargs_list.length).length := by
    rw [assignedSeeds_length]; exact h
  simp only [taskOutcome]
  rw [zip_getD _ _ j h hlen, assignedSeeds_getD _ _ _ _ _ h]

theorem taskOutcome_raised {α ε : Type} (se : ChildSeed → α) (fn : Kwargs α → Except ε α)
    (kwargs_list : List (Kwargs α)) (seed : Option Int) (osEntropy : Int)
    (pre_fn : Option (ChildSeed → Except ε Unit)) (post_fn : Option (Except ε Unit))
    (n_workers : Nat) (wassign : Nat → Nat) (j : Nat) (hpost : noRaiseOpt post_fn) :
    (taskOutcome se fn kwargs_list seed osEntropy pre_fn post_fn n_workers wassign j).raised
      = none := by
  by_cases h0 : n_workers = 0
  · simp [taskOutcome, h0, run_fn_raised, hookRaise]
  · simp [taskOutcome, h0, run_fn_raised, hookRaise_eq_none post_fn hpost]

theorem lookup_map_pair {β : Type} (l : List Nat) (f : Nat → β) (i : Nat) (h : i ∈ l) :
    (l.map (fun j => (j, f j))).lookup i = some (f i) := by
  induction l with
  | nil => cases h
  | cons a as ih =>
    simp only [List.map_cons, List.lookup_cons]
    by_cases hia : i = a
    · subst hia; simp
    · have hmem : i ∈ as := by
        cases h with
        | head => exact absurd rfl hia
        | tail _ h2 => exact h2
      have hb : (i == a) = false := beq_eq_false_iff_ne.mpr hia
      simp [hb, ih hmem]

theorem lookup_reverse_map_pair {β : Type} (l : List Nat) (f : Nat → β) (i : Nat)
    (h : i ∈ l) :
    ((l.map (fun j => (j, f j))).reverse).lookup i = some (f i) := by
  rw [← List.map_reverse]
  exact lookup_map_pair _ f i (List.mem_reverse.mpr h)

theorem collectResults_ok {α ε : Type} (outcome : Nat → RunResult α ε)
    (hr : ∀ j, (outcome j).raised = none) (order : List Nat) :
    ∀ acc : List (Nat × (Option α × Bool)),
    collectResults outcome order acc
      = Except.ok
          ((order.map (fun j => (j, ((outcome j).result, (outcome j).completed)))).reverse
            ++ acc) := by
  induction order with
  | nil => intro acc; simp [collectResults]
  | cons j rest ih =>
    intro acc
    simp only [collectResults, hr j, ih, List.map_cons, List.reverse_cons,
      List.append_assoc, List.cons_append, List.nil_append]

theorem preBenign_none {ε : Type} : preBenign (ε := ε) none :=
  fun p s h => by cases h

theorem noRaiseOpt_none {ε : Type} : noRaiseOpt (ε := ε) none :=
  fun e h => by cases h

theorem run_fn_queuePuts_worker {α ε : Type} (se : ChildSeed → α) (fn : Kwargs α → Except ε α)
    (args : Kwargs α × ChildSeed) (pre_fn : Option (ChildSeed → Except ε Unit))
    (post_fn : Option (Except ε Unit)) (n : Nat) :
    (_run_fn se fn args pre_fn post_fn (some n)).queuePuts = [n] := rfl

theorem dictGet_append_self {α : Type} (d : Kwargs α) (k : String) (v : α)
    (h : dictHas d k = false) : dictGet (d ++ [(k, v)]) k = some v := by
  induction d with
  | nil => simp [dictGet]
  | cons p rest ih =>
    simp only [dictHas, List.any_cons, Bool.or_eq_false_iff] at h
    simp only [List.cons_append, dictGet, h.1, if_false]
    exact ih h.2

theorem dictHas_append_self {α : Type} (d : Kwargs α) (k : String) (v : α) :
    dictHas (d ++ [(k, v)]) k = true := by
  simp [dictHas, List.any_append]

theorem foldl_append_queuePuts {α ε : Type} (w : Nat) :
    ∀ (runs : List (RunResult α ε)), (∀ r ∈ runs, r.queuePuts = [w]) →
    ∀ acc : List Nat,
      runs.foldl (fun a r => a ++ r.queuePuts) acc = acc ++ List.replicate runs.length w := by
  intro runs
  induction runs with
  | nil => intro _ acc; simp
  | cons r rest ih =>
    intro h acc
    have hr : r.queuePuts = [w] := h r (List.mem_cons_self r rest)
    have hrest : ∀ r2 ∈ rest, r2.queuePuts = [w] :=
      fun r2 hm => h r2 (List.mem_cons_of_mem r hm)
    simp only [List.foldl_cons, hr, ih hrest, List.length_cons, List.replicate_succ]
    simp [List.append_assoc]

theorem taskOutcome_result_completed {α ε : Type} (se : ChildSeed → α)
    (fn : Kwargs α → Except ε α) (kwargs_list : List (Kwargs α)) (seed : Option Int)
    (osEntropy : Int) (pre_fn : Option (ChildSeed → Except ε Unit))
    (post_fn : Option (Except ε Unit)) (n_workers : Nat) (wassign : Nat → Nat) (j : Nat)
    (hpre : preBenign pre_fn) (hj : j < kwargs_list.length) :
    (taskOutcome se fn kwargs_list seed osEntropy pre_fn post_fn n_workers wassign j).result
      = (match fn (injectSeed (kwargs_list.getD j []) (se (childSeedAt seed osEntropy j))) with
         | Except.ok v => some v
         | Except.error _ => none) ∧
    (taskOutcome se fn kwargs_list seed osEntropy pre_fn post_fn n_workers wassign j).completed
      = (match fn (injectSeed (kwargs_list.getD j []) (se (childSeedAt seed osEntropy j))) with
         | Except.ok _ => true
         | Except.error _ => false) := by
  rw [taskOutcome_eq se fn kwargs_list seed osEntropy pre_fn post_fn n_workers wassign j hj]
  by_cases h0 : n_workers = 0
  · rw [if_pos h0]
    have h := run_fn_of_preBenign se fn (kwargs_list.getD j [])
      (childSeedAt seed osEntropy j) none none none (preBenign_none (ε := ε))
    exact ⟨h.1, h.2.1⟩
  · rw [if_neg h0]
    have h := run_fn_of_preBenign se fn (kwargs_list.getD j [])
      (childSeedAt seed osEntropy j) pre_fn post_fn (some (wassign j)) hpre
    exact ⟨h.1, h.2.1⟩

theorem distributed_eval_ok {α ε : Type} (se : ChildSeed → α) (fn : Kwargs α → Except ε α)
    (kwargs_list : List (Kwargs α)) (init_fn : Option (Except ε Unit))
    (pre_fn : Option (ChildSeed → Except ε Unit)) (post_fn : Option (Except ε Unit))
    (n_workers : Nat) (seed : Option Int) (osEntropy : Int)
    (order : List Nat) (wassign : Nat → Nat)
    (hinit : noRaiseOpt init_fn) (hpost : noRaiseOpt post_fn)
    (horder : ∀ i, i < kwargs_list.length → i ∈ order) :
    distributed_eval se fn kwargs_list init_fn pre_fn post_fn n_workers seed osEntropy
        order wassign
      = Except.ok
          ((List.range kwargs_list.length).map
            (fun i =>
              (taskOutcome se fn kwargs_list seed osEntropy pre_fn post_fn n_workers
                wassign i).result),
           (List.range kwargs_list.length).map
            (fun i =>
              (taskOutcome se fn kwargs_list seed osEntropy pre_fn post_fn n_workers
                wassign i).completed)) := by
  have hr : ∀ j,
      (taskOutcome se fn kwargs_list seed osEntropy pre_fn post_fn n_workers
        wassign j).raised = none :=
    fun j =>
      taskOutcome_raised se fn kwargs_list seed osEntropy pre_fn post_fn n_workers
        wassign j hpost
  by_cases h0 : n_workers = 0
  · subst h0
    simp [distributed_eval, List.map_map]
  · simp only [distributed_eval, if_neg h0]
    rw [hookRaise_eq_none init_fn hinit]
    rw [collectResults_ok
      (fun j =>
        taskOutcome se fn kwargs_list seed osEntropy pre_fn post_fn n_workers wassign j)
      hr order]
    rw [List.append_nil]
    have hlook : ∀ i ∈ List.range kwargs_list.length,
        ((order.map
            (fun j =>
              (j, ((taskOutcome se fn kwargs_list seed osEntropy pre_fn post_fn n_workers
                      wassign j).result,
                   (taskOutcome se fn kwargs_list seed osEntropy pre_fn post_fn n_workers
                      wassign j).completed)))).reverse.lookup i).getD (none, false)
          = ((taskOutcome se fn kwargs_list seed osEntropy pre_fn post_fn n_workers
                wassign i).result,
             (taskOutcome se fn kwargs_list seed osEntropy pre_fn post_fn n_workers
                wassign i).completed) := by
      intro i hi
      rw [lookup_reverse_map_pair order _ i (horder i (List.mem_range.mp hi))]
      rfl
    dsimp only
    congr 1
    congr 1
    · exact List.map_congr_left (fun i hi => by rw [hlook i hi])
    · exact List.map_congr_left (fun i hi => by rw [hlook i hi])

/-- Claim C1: for every input list `kwargs_list` of length N, `distributed_eval`
returns two sequences (results, completeds) both of length N, and for every
index i the pair (results[i], completeds[i]) is the outcome of executing the
task built from kwargs_list[i], for every n_workers value and regardless of
the order in which tasks complete.  (Hooks, when supplied, are assumed not to
raise: a raising init or post hook aborts the run instead of returning, see
claim C8.) -/
theorem claim_C1_order_preservation {α ε : Type} (se : ChildSeed → α)
    (fn : Kwargs α → Except ε α) (kwargs_list : List (Kwargs α))
    (init_fn : Option (Except ε Unit)) (pre_fn : Option (ChildSeed → Except ε Unit))
    (post_fn : Option (Except ε Unit)) (n_workers : Nat) (seed : Option Int)
    (osEntropy : Int) (order : List Nat) (wassign : Nat → Nat)
    (hinit : noRaiseOpt init_fn) (hpost : noRaiseOpt post_fn)
    (horder : order.Perm (List.range kwargs_list.length)) :
    ∃ R C, distributed_eval se fn kwargs_list init_fn pre_fn post_fn n_workers seed
        osEntropy order wassign = Except.ok (R, C) ∧
      R.length = kwargs_list.length ∧ C.length = kwargs_list.length ∧
      ∀ i, i < kwargs_list.length →
        R[i]? = some (taskOutcome se fn kwargs_list seed osEntropy pre_fn post_fn
            n_workers wassign i).result ∧
        C[i]? = some (taskOutcome se fn kwargs_list seed osEntropy pre_fn post_fn
            n_workers wassign i).completed := by
  have hmem : ∀ i, i < kwargs_list.length → i ∈ order :=
    fun i hi => horder.mem_iff.mpr (List.mem_range.mpr hi)
  refine ⟨_, _, distributed_eval_ok se fn kwargs_list init_fn pre_fn post_fn n_workers
      seed osEntropy order wassign hinit hpost hmem, ?_, ?_, ?_⟩
  · simp
  · simp
  · intro i hi
    constructor
    · simp [List.getElem?_map, List.getElem?_range, hi]
    · simp [List.getElem?_map, List.getElem?_range, hi]

theorem claim_C1_order_preservation_witness :
    noRaiseOpt (none : Option (Except Unit Unit)) ∧
    ([1, 0] : List Nat).Perm (List.range 2) ∧
    (∃ R C, distributed_eval (α := Int) (ε := Unit) ChildSeed.entropy
        (fun _ => Except.ok 7) [[("x", 1)], []] none none none 2 (some 5) 0 [1, 0]
        (fun _ => 0) = Except.ok (R, C) ∧
      R.length = 2 ∧ C.length = 2 ∧
      ∀ i, i < 2 →
        R[i]? = some (taskOutcome (α := Int) (ε := Unit) ChildSeed.entropy
            (fun _ => Except.ok 7) [[("x", 1)], []] (some 5) 0 none none 2
            (fun _ => 0) i).result ∧
        C[i]? = some (taskOutcome (α := Int) (ε := Unit) ChildSeed.entropy
            (fun _ => Except.ok 7) [[("x", 1)], []] (some 5) 0 none none 2
            (fun _ => 0) i).completed) :=
  And.intro noRaiseOpt_none
    (And.intro (by decide)
      (claim_C1_order_preservation ChildSeed.entropy (fun _ => Except.ok 7)
        [[("x", 1)], []] none none none 2 (some 5) 0 [1, 0] (fun _ => 0)
        noRaiseOpt_none noRaiseOpt_none (by decide)))

/-- Claim C2: seed derivation is deterministic and scheduling-independent: two
runs of `distributed_eval` with the same supplied master seed and the same task
count assign the identical derived seed to each input index, even with
different n_workers values (and different worker assignments, completion
orders, user functions, hooks, and OS entropy). -/
theorem claim_C2_seed_determinism {α ε : Type} (se : ChildSeed → α)
    (fn1 fn2 : Kwargs α → Except ε α) (kl1 kl2 : List (Kwargs α))
    (s : Int) (osE1 osE2 : Int)
    (pre1 pre2 : Option (ChildSeed → Except ε Unit)) (post1 post2 : Option (Except ε Unit))
    (nw1 nw2 : Nat) (wa1 wa2 : Nat → Nat) (i : Nat)
    (hlen : kl1.length = kl2.length) (hi : i < kl1.length) :
    (taskOutcome se fn1 kl1 (some s) osE1 pre1 post1 nw1 wa1 i).seedUsed
      = (taskOutcome se fn2 kl2 (some s) osE2 pre2 post2 nw2 wa2 i).seedUsed ∧
    (taskOutcome se fn1 kl1 (some s) osE1 pre1 post1 nw1 wa1 i).seedUsed
      = childSeedAt (some s) osE1 i := by
  have hi2 : i < kl2.length := hlen ▸ hi
  rw [taskOutcome_eq se fn1 kl1 (some s) osE1 pre1 post1 nw1 wa1 i hi,
    taskOutcome_eq se fn2 kl2 (some s) osE2 pre2 post2 nw2 wa2 i hi2]
  by_cases h1 : nw1 = 0 <;> by_cases h2 : nw2 = 0 <;>
    simp [h1, h2, run_fn_seedUsed, childSeedAt]

theorem claim_C2_seed_determinism_witness :
    ([[("x", 1)], []] : List (Kwargs Int)).length = ([[], []] : List (Kwargs Int)).length ∧
    (1 : Nat) < ([[("x", 1)], []] : List (Kwargs Int)).length ∧
    ((taskOutcome (ε := Unit) ChildSeed.entropy (fun _ => Except.ok 7) [[("x", 1)], []]
        (some 5) 11 none none 0 (fun _ => 0) 1).seedUsed
      = (taskOutcome (ε := Unit) ChildSeed.entropy (fun _ => Except.error ()) [[], []]
        (some 5) 22 none none 4 (fun j => j) 1).seedUsed ∧
     (taskOutcome (ε := Unit) ChildSeed.entropy (fun _ => Except.ok 7) [[("x", 1)], []]
        (some 5) 11 none none 0 (fun _ => 0) 1).seedUsed = childSeedAt (some 5) 11 1) :=
  ⟨by decide, by decide,
    claim_C2_seed_determinism ChildSeed.entropy (fun _ => Except.ok 7)
      (fun _ => Except.error ()) [[("x", 1)], []] [[], []] 5 11 22 none none none none
      0 4 (fun _ => 0) (fun j => j) 1 (by decide) (by decide)⟩

/-- Claim C3: any exception raised by the pre-hook or by the user function
during task execution is caught inside `_run_fn`, which returns (absent
result, failure flag) for that task; the only error that can escape `_run_fn`
is a post-hook error, never the task's own.  Consequently a task list in
which exactly the k-th task's function raises yields a false flag with an
absent result exactly at k, all other entries being normal successes. -/
theorem claim_C3_fault_isolation {α ε : Type} (se : ChildSeed → α)
    (fn : Kwargs α → Except ε α) (kwargs_list : List (Kwargs α))
    (init_fn : Option (Except ε Unit)) (pre_fn : Option (ChildSeed → Except ε Unit))
    (post_fn : Option (Except ε Unit)) (n_workers : Nat) (seed : Option Int)
    (osEntropy : Int) (order : List Nat) (wassign : Nat → Nat) (k : Nat) (e0 : ε)
    (hinit : noRaiseOpt init_fn) (hpre : preBenign pre_fn) (hpost : noRaiseOpt post_fn)
    (horder : order.Perm (List.range kwargs_list.length))
    (hk : k < kwargs_list.length)
    (hfail : fn (injectSeed (kwargs_list.getD k []) (se (childSeedAt seed osEntropy k)))
      = Except.error e0)
    (hsucc : ∀ j, j < kwargs_list.length → j ≠ k →
      ∃ v, fn (injectSeed (kwargs_list.getD j []) (se (childSeedAt seed osEntropy j)))
        = Except.ok v) :
    (∀ (fn2 : Kwargs α → Except ε α) (kwargs : Kwargs α) (sd : ChildSeed)
        (pre2 : Option (ChildSeed → Except ε Unit)) (post2 : Option (Except ε Unit))
        (w : Option Nat),
      ((∃ p, pre2 = some p ∧ ∃ e, p sd = Except.error e) ∨
       (∃ e, fn2 (injectSeed kwargs (se sd)) = Except.error e)) →
      (_run_fn se fn2 (kwargs, sd) pre2 post2 w).result = none ∧
      (_run_fn se fn2 (kwargs, sd) pre2 post2 w).completed = false ∧
      (_run_fn se fn2 (kwargs, sd) pre2 post2 w).raised = hookRaise post2) ∧
    (∃ R C, distributed_eval se fn kwargs_list init_fn pre_fn post_fn n_workers seed
        osEntropy order wassign = Except.ok (R, C) ∧
      R[k]? = some none ∧ C[k]? = some false ∧
      ∀ j, j < kwargs_list.length → j ≠ k →
        C[j]? = some true ∧
        ∃ v, R[j]? = some (some v) ∧
          fn (injectSeed (kwargs_list.getD j []) (se (childSeedAt seed osEntropy j)))
            = Except.ok v) := by
  constructor
  · intro fn2 kwargs sd pre2 post2 w hraise
    cases hraise with
    | inl h =>
      obtain ⟨p, hp, e, hpe⟩ := h
      subst hp
      simp [_run_fn, hpe]
    | inr h =>
      obtain ⟨e, he⟩ := h
      cases pre2 with
      | none => simp [_run_fn, he]
      | some p =>
        cases hps : p sd with
        | error e2 => simp [_run_fn, hps]
        | ok u => simp [_run_fn, hps, he]
  · have hmem : ∀ i, i < kwargs_list.length → i ∈ order :=
      fun i hi => horder.mem_iff.mpr (List.mem_range.mpr hi)
    have hfail2 : fn (injectSeed kwargs_list[k] (se (childSeedAt seed osEntropy k)))
        = Except.error e0 := by
      rw [List.getD_eq_getElem kwargs_list [] hk] at hfail
      exact hfail
    refine ⟨_, _, distributed_eval_ok se fn kwargs_list init_fn pre_fn post_fn n_workers
        seed osEntropy order wassign hinit hpost hmem, ?_, ?_, ?_⟩
    · have h := taskOutcome_result_completed se fn kwargs_list seed osEntropy pre_fn
        post_fn n_workers wassign k hpre hk
      simp [List.getElem?_map, List.getElem?_range, hk, h.1, hfail2]
    · have h := taskOutcome_result_completed se fn kwargs_list seed osEntropy pre_fn
        post_fn n_workers wassign k hpre hk
      simp [List.getElem?_map, List.getElem?_range, hk, h.2, hfail2]
    · intro j hj hjk
      obtain ⟨v, hv⟩ := hsucc j hj hjk
      have hv2 : fn (injectSeed kwargs_list[j] (se (childSeedAt seed osEntropy j)))
          = Except.ok v := by
        rw [List.getD_eq_getElem kwargs_list [] hj] at hv
        exact hv
      have h := taskOutcome_result_completed se fn kwargs_list seed osEntropy pre_fn
        post_fn n_workers wassign j hpre hj
      constructor
      · simp [List.getElem?_map, List.getElem?_range, hj, h.2, hv2]
      · exact ⟨v, by simp [List.getElem?_map, List.getElem?_range, hj, h.1, hv2], hv⟩

theorem claim_C3_fault_isolation_witness :
    (0 : Nat) < 2 ∧
    (∃ R C, distributed_eval (α := Int) (ε := Unit)
        (fun sd => Int.ofNat (sd.spawnKey.headD 0))
        (fun d => match dictGet d "seed" with
          | some 0 => Except.error ()
          | _ => Except.ok 9)
        [[], []] none none none 3 (some 5) 0 [1, 0] (fun _ => 0)
        = Except.ok (R, C) ∧
      R[0]? = some none ∧ C[0]? = some false ∧
      ∀ j, j < 2 → j ≠ 0 →
        C[j]? = some true ∧
        ∃ v : Int, R[j]? = some (some v) ∧
          (fun d => match dictGet d "seed" with
            | some 0 => Except.error ()
            | _ => Except.ok 9)
            (injectSeed (([[], []] : List (Kwargs Int)).getD j [])
              ((fun sd => Int.ofNat (sd.spawnKey.headD 0)) (childSeedAt (some 5) 0 j)))
            = Except.ok v) :=
  And.intro (by decide)
    ((claim_C3_fault_isolation (fun sd => Int.ofNat (sd.spawnKey.headD 0))
      (fun d => match dictGet d "seed" with
        | some 0 => Except.error ()
        | _ => Except.ok 9)
      [[], []] none none none 3 (some 5) 0 [1, 0] (fun _ => 0) 0 ()
      noRaiseOpt_none preBenign_none noRaiseOpt_none (by decide)
      (by decide) rfl
      (by
        intro j hj hjk
        have hj2 : j < 2 := hj
        have hj1 : j = 1 := by omega
        subst hj1
        exact ⟨9, rfl⟩)).2)

/-- Claim C4 counterexample: with a pre-hook that raises, `n_workers = 0`
ignores the pre-hook and the task succeeds, while `n_workers = 2` runs it in
the worker and the task fails, so the results differ. -/
theorem claim_C4_counterexample :
    distributed_eval (α := Nat) (ε := Unit) (fun _ => 0) (fun _ => Except.ok 1) [[]]
        none (some (fun _ => Except.error ())) none 0 (some 3) 0 [0] (fun _ => 0)
      = Except.ok ([some 1], [true]) ∧
    distributed_eval (α := Nat) (ε := Unit) (fun _ => 0) (fun _ => Except.ok 1) [[]]
        none (some (fun _ => Except.error ())) none 2 (some 3) 0 [0] (fun _ => 0)
      = Except.ok ([none], [false]) ∧
    (Except.ok ([some 1], [true]) : Except Unit (List (Option Nat) × List Bool))
      ≠ Except.ok ([none], [false]) :=
  And.intro rfl (And.intro rfl (by simp))

/-- Claim C4 (amended): when n_workers == 0, `distributed_eval` executes every
task synchronously in input order with the same seed-to-index assignment as
the parallel path, and — provided a supplied pre hook never raises and the
init/post hooks never raise (the synchronous path skips all hooks, claim C9)
— the output with n_workers = 0 equals the output with any worker count, in
particular n_workers = 2. -/
theorem claim_C4_sync_parallel_equiv {α ε : Type} (se : ChildSeed → α)
    (fn : Kwargs α → Except ε α) (kwargs_list : List (Kwargs α))
    (init_fn : Option (Except ε Unit)) (pre_fn : Option (ChildSeed → Except ε Unit))
    (post_fn : Option (Except ε Unit)) (n_workers : Nat) (seed : Option Int)
    (osEntropy : Int) (order order0 : List Nat) (wassign wassign0 : Nat → Nat)
    (hinit : noRaiseOpt init_fn) (hpre : preBenign pre_fn) (hpost : noRaiseOpt post_fn)
    (horder : order.Perm (List.range kwargs_list.length))
    (horder0 : order0.Perm (List.range kwargs_list.length)) :
    distributed_eval se fn kwargs_list init_fn pre_fn post_fn 0 seed osEntropy
        order0 wassign0
      = distributed_eval se fn kwargs_list init_fn pre_fn post_fn n_workers seed
        osEntropy order wassign ∧
    ∀ i, i < kwargs_list.length →
      (taskOutcome se fn kwargs_list seed osEntropy pre_fn post_fn 0 wassign0 i).seedUsed
        = (taskOutcome se fn kwargs_list seed osEntropy pre_fn post_fn n_workers
            wassign i).seedUsed := by
  have hmem : ∀ i, i < kwargs_list.length → i ∈ order :=
    fun i hi => horder.mem_iff.mpr (List.mem_range.mpr hi)
  have hmem0 : ∀ i, i < kwargs_list.length → i ∈ order0 :=
    fun i hi => horder0.mem_iff.mpr (List.mem_range.mpr hi)
  constructor
  · rw [distributed_eval_ok se fn kwargs_list init_fn pre_fn post_fn 0 seed osEntropy
      order0 wassign0 hinit hpost hmem0,
      distributed_eval_ok se fn kwargs_list init_fn pre_fn post_fn n_workers seed
      osEntropy order wassign hinit hpost hmem]
    congr 1
    congr 1
    · exact List.map_congr_left fun i hi => by
        have h1 := taskOutcome_result_completed se fn kwargs_list seed osEntropy pre_fn
          post_fn 0 wassign0 i hpre (List.mem_range.mp hi)
        have h2 := taskOutcome_result_completed se fn kwargs_list seed osEntropy pre_fn
          post_fn n_workers wassign i hpre (List.mem_range.mp hi)
        rw [h1.1, h2.1]
    · exact List.map_congr_left fun i hi => by
        have h1 := taskOutcome_result_completed se fn kwargs_list seed osEntropy pre_fn
          post_fn 0 wassign0 i hpre (List.mem_range.mp hi)
        have h2 := taskOutcome_result_completed se fn kwargs_list seed osEntropy pre_fn
          post_fn n_workers wassign i hpre (List.mem_range.mp hi)
        rw [h1.2, h2.2]
  · intro i hi
    rw [taskOutcome_eq se fn kwargs_list seed osEntropy pre_fn post_fn 0 wassign0 i hi,
      taskOutcome_eq se fn kwargs_list seed osEntropy pre_fn post_fn n_workers wassign
      i hi]
    by_cases h2 : n_workers = 0 <;> simp [h2, run_fn_seedUsed]

theorem claim_C4_sync_parallel_equiv_witness :
    ([0, 1] : List Nat).Perm (List.range 2) ∧
    (distributed_eval (α := Int) (ε := Unit) ChildSeed.entropy (fun _ => Except.ok 7)
        [[("x", 1)], []] none none none 0 (some 5) 0 [0, 1] (fun _ => 0)
      = distributed_eval (α := Int) (ε := Unit) ChildSeed.entropy (fun _ => Except.ok 7)
        [[("x", 1)], []] none none none 2 (some 5) 0 [1, 0] (fun j => j)) :=
  And.intro (by decide)
    ((claim_C4_sync_parallel_equiv ChildSeed.entropy (fun _ => Except.ok 7)
      [[("x", 1)], []] none none none 2 (some 5) 0 [1, 0] [0, 1] (fun j => j)
      (fun _ => 0) noRaiseOpt_none preBenign_none noRaiseOpt_none
      (by decide) (by decide)).1)

/-- Claim C9: when n_workers == 0, `distributed_eval` never invokes `pre_fn`,
`post_fn`, or `init_fn` even when they are supplied: the synchronous fallback
runs every task through `_run_fn(fn, (kwargs, seed))` only, so its output is
the same as if no hooks had been supplied at all, the hook invocation counts
of every task outcome are zero, and nothing is put into the slot queue. -/
theorem claim_C9_sync_skips_hooks {α ε : Type} (se : ChildSeed → α)
    (fn : Kwargs α → Except ε α) (kwargs_list : List (Kwargs α))
    (init_fn : Option (Except ε Unit)) (pre_fn : Option (ChildSeed → Except ε Unit))
    (post_fn : Option (Except ε Unit)) (seed : Option Int) (osEntropy : Int)
    (order order2 : List Nat) (wassign wassign2 : Nat → Nat) :
    distributed_eval se fn kwargs_list init_fn pre_fn post_fn 0 seed osEntropy
        order wassign
      = distributed_eval se fn kwargs_list none none none 0 seed osEntropy
        order2 wassign2 ∧
    ∀ j, (taskOutcome se fn kwargs_list seed osEntropy pre_fn post_fn 0 wassign j).preCalls
        = 0 ∧
      (taskOutcome se fn kwargs_list seed osEntropy pre_fn post_fn 0 wassign j).postCalls
        = 0 ∧
      (taskOutcome se fn kwargs_list seed osEntropy pre_fn post_fn 0 wassign j).queuePuts
        = [] := by
  exact ⟨rfl, fun j => ⟨rfl, rfl, rfl⟩⟩

/-- Claim C5 counterexample: slot tokens ARE placed back into the channel: a
worker that has run one task has put a copy of its slot id into the queue
(`__queue.put(__worker_num)` in `_run_fn`, lines 62-64), so the channel is not
empty afterwards as the claim requires. -/
theorem claim_C5_counterexample :
    ∃ tr, workerLifecycle (α := Nat) (ε := Unit) (fun _ => 0) (fun _ => Except.ok 0)
        none none [0] 0 1 1 true none [([], default)] = Except.ok tr ∧
      tr.puts = [0] ∧ tr.puts ≠ ([] : List Nat) ∧ tr.channelAfter = [0] := by
  refine ⟨_, rfl, rfl, by decide, rfl⟩

/-- Claim C5 (amended): each worker receives exactly one slot token from the
shared channel, once at startup (the single `q.get` of `_init_proc` removes
the head token and is the only receive of the worker's lifetime), and the
worker keeps that slot id until the process terminates (every task run uses
it); however — contrary to the claim as stated — after every task `_run_fn`
puts a copy of the slot id back into the channel, so after running its tasks
the channel holds the remaining startup tokens plus one copy of the slot id
per completed task. -/
theorem claim_C5_slot_lifecycle {α ε : Type} (se : ChildSeed → α)
    (fn : Kwargs α → Except ε α) (pre_fn : Option (ChildSeed → Except ε Unit))
    (post_fn : Option (Except ε Unit)) (w : Nat) (rest : List Nat)
    (proc_start n_workers n_proc_per_worker : Nat) (isLinux : Bool)
    (init_fn : Option (Except ε Unit)) (tasks : List (Kwargs α × ChildSeed))
    (hinit : noRaiseOpt init_fn) :
    ∃ tr, workerLifecycle se fn pre_fn post_fn (w :: rest) proc_start n_workers
        n_proc_per_worker isLinux init_fn tasks = Except.ok tr ∧
      tr.workerNum = w ∧
      tr.runs.length = tasks.length ∧
      (∀ r ∈ tr.runs, r.queuePuts = [w]) ∧
      tr.puts = List.replicate tasks.length w ∧
      tr.channelAfter = rest ++ List.replicate tasks.length w := by
  have hq : _init_proc (w :: rest) proc_start n_workers n_proc_per_worker isLinux init_fn
      = Except.ok (InitOk.mk w rest
          (if isLinux then
            some (affinitySet proc_start n_workers n_proc_per_worker w) else none)) := by
    simp only [_init_proc, hookRaise_eq_none init_fn hinit]
  have hputs : ∀ r ∈ tasks.map (fun t => _run_fn se fn t pre_fn post_fn (some w)),
      r.queuePuts = [w] := by
    intro r hr
    obtain ⟨t, ht, rfl⟩ := List.mem_map.mp hr
    rfl
  have hfold := foldl_append_queuePuts (α := α) (ε := ε) w
    (tasks.map (fun t => _run_fn se fn t pre_fn post_fn (some w))) hputs []
  have hmain : workerLifecycle se fn pre_fn post_fn (w :: rest) proc_start n_workers
      n_proc_per_worker isLinux init_fn tasks
      = Except.ok
          { workerNum := w
            puts := List.replicate tasks.length w
            channelAfter := rest ++ List.replicate tasks.length w
            runs := tasks.map (fun t => _run_fn se fn t pre_fn post_fn (some w)) } := by
    simp only [workerLifecycle, hq]
    rw [hfold]
    simp [List.length_map]
  exact ⟨_, hmain, rfl, by simp, hputs, rfl, rfl⟩

theorem claim_C5_slot_lifecycle_witness :
    noRaiseOpt (none : Option (Except Unit Unit)) ∧
    (∃ tr, workerLifecycle (α := Nat) (ε := Unit) (fun _ => 0) (fun _ => Except.ok 0)
        none none [3, 7] 0 2 1 true none [([], default), ([], default)]
        = Except.ok tr ∧
      tr.workerNum = 3 ∧
      tr.runs.length = 2 ∧
      (∀ r ∈ tr.runs, r.queuePuts = [3]) ∧
      tr.puts = List.replicate 2 3 ∧
      tr.channelAfter = [7] ++ List.replicate 2 3) :=
  And.intro noRaiseOpt_none
    (claim_C5_slot_lifecycle (fun _ => 0) (fun _ => Except.ok 0) none none 3 [7] 0 2 1
      true none [([], default), ([], default)] noRaiseOpt_none)

theorem affinity_key_lt {n1 n2 P : Nat} (i j : Nat) (h : n1 < n2) (hi : i < P) :
    n1 * P + i < n2 * P + j := by
  have h2 : (n1 + 1) * P ≤ n2 * P := Nat.mul_le_mul_right P h
  rw [Nat.succ_mul] at h2
  omega

/-- Claim C6: on Linux the worker initializer computes the affinity set
  { proc_start + (slot * n_proc_per_worker + i) % (n_workers * n_proc_per_worker)
     : i < n_proc_per_worker }
and, whenever n_workers * n_proc_per_worker does not exceed the number of
logical CPUs, the affinity sets of two distinct slot ids below n_workers are
disjoint.  (Disjointness in fact needs no CPU bound: the modulus never wraps
for slot ids below n_workers.) -/
theorem claim_C6_affinity_disjoint (proc_start n_workers n_proc_per_worker n1 n2 ncpu : Nat)
    (h1 : n1 < n_workers) (h2 : n2 < n_workers) (hne : n1 ≠ n2)
    (hcap : n_workers * n_proc_per_worker ≤ ncpu) :
    (∀ rest : List Nat, _init_proc (ε := Unit) (n1 :: rest) proc_start n_workers
        n_proc_per_worker true none
      = Except.ok (InitOk.mk n1 rest
          (some (affinitySet proc_start n_workers n_proc_per_worker n1)))) ∧
    (∀ x, x ∈ affinitySet proc_start n_workers n_proc_per_worker n1 ↔
      ∃ i, i < n_proc_per_worker ∧
        x = proc_start + (n1 * n_proc_per_worker + i) % (n_workers * n_proc_per_worker)) ∧
    (∀ x, x ∈ affinitySet proc_start n_workers n_proc_per_worker n1 →
      x ∉ affinitySet proc_start n_workers n_proc_per_worker n2) := by
  refine ⟨fun rest => rfl, ?_, ?_⟩
  · intro x
    constructor
    · intro hx
      simp only [affinitySet] at hx
      obtain ⟨i, hi, hxi⟩ := List.mem_map.mp hx
      exact ⟨i, List.mem_range.mp hi, hxi.symm⟩
    · rintro ⟨i, hi, rfl⟩
      simp only [affinitySet]
      exact List.mem_map.mpr ⟨i, List.mem_range.mpr hi, rfl⟩
  · intro x hx hx2
    simp only [affinitySet] at hx hx2
    obtain ⟨i, hi2, hxi⟩ := List.mem_map.mp hx
    obtain ⟨j, hj2, hxj⟩ := List.mem_map.mp hx2
    have hi : i < n_proc_per_worker := List.mem_range.mp hi2
    have hj : j < n_proc_per_worker := List.mem_range.mp hj2
    have hlt1 : n1 * n_proc_per_worker + i < n_workers * n_proc_per_worker := by
      have h3 := affinity_key_lt i 0 h1 hi
      omega
    have hlt2 : n2 * n_proc_per_worker + j < n_workers * n_proc_per_worker := by
      have h3 := affinity_key_lt j 0 h2 hj
      omega
    rw [Nat.mod_eq_of_lt hlt1] at hxi
    rw [Nat.mod_eq_of_lt hlt2] at hxj
    rcases Nat.lt_trichotomy n1 n2 with h | h | h
    · have h4 := affinity_key_lt i j h hi
      omega
    · exact hne h
    · have h4 := affinity_key_lt j i h hj
      omega

theorem claim_C6_affinity_disjoint_witness :
    (0 : Nat) < 2 ∧ (1 : Nat) < 2 ∧ (0 : Nat) ≠ 1 ∧ 2 * 1 ≤ 2 ∧
    (∀ x, x ∈ affinitySet 0 2 1 0 → x ∉ affinitySet 0 2 1 1) :=
  ⟨by decide, by decide, by decide, by decide,
    (claim_C6_affinity_disjoint 0 2 1 0 1 2 (by decide) (by decide) (by decide)
      (by decide)).2.2⟩

/-- Claim C7: if the task's kwargs mapping does not contain a "seed" key, the
user function is invoked with the derived seed added under "seed"; if the
caller's mapping already contains a "seed" key, the mapping is passed through
unchanged, so the user function sees the caller's value and the derived seed
is not injected.  (The invocation is the one `_run_fn` performs when the pre
hook, if any, did not raise.) -/
theorem claim_C7_seed_injection {α ε : Type} (se : ChildSeed → α)
    (fn : Kwargs α → Except ε α) (kwargs : Kwargs α) (sd : ChildSeed)
    (pre_fn : Option (ChildSeed → Except ε Unit)) (post_fn : Option (Except ε Unit))
    (w : Option Nat) (hpre : preBenign pre_fn) :
    (dictHas kwargs "seed" = false →
      (_run_fn se fn (kwargs, sd) pre_fn post_fn w).kwargs
        = kwargs ++ [("seed", se sd)] ∧
      dictGet (_run_fn se fn (kwargs, sd) pre_fn post_fn w).kwargs "seed"
        = some (se sd)) ∧
    (dictHas kwargs "seed" = true →
      (_run_fn se fn (kwargs, sd) pre_fn post_fn w).kwargs = kwargs) ∧
    (_run_fn se fn (kwargs, sd) pre_fn post_fn w).result
      = (match fn ((_run_fn se fn (kwargs, sd) pre_fn post_fn w).kwargs) with
         | Except.ok v => some v
         | Except.error _ => none) := by
  have h := run_fn_of_preBenign se fn kwargs sd pre_fn post_fn w hpre
  refine ⟨?_, ?_, ?_⟩
  · intro hh
    have hk : injectSeed kwargs (se sd) = kwargs ++ [("seed", se sd)] := by
      simp [injectSeed, hh]
    constructor
    · rw [h.2.2, hk]
    · rw [h.2.2, hk]
      exact dictGet_append_self kwargs "seed" (se sd) hh
  · intro hh
    have hk : injectSeed kwargs (se sd) = kwargs := by simp [injectSeed, hh]
    rw [h.2.2, hk]
  · rw [h.1, h.2.2]

theorem claim_C7_seed_injection_witness :
    dictHas ([("x", 1)] : Kwargs Int) "seed" = false ∧
    (_run_fn (ε := Unit) ChildSeed.entropy (fun _ => Except.ok 7)
        ([("x", 1)], ChildSeed.mk 5 [0]) none none none).kwargs
      = [("x", 1)] ++ [("seed", (5 : Int))] ∧
    dictGet (_run_fn (ε := Unit) ChildSeed.entropy (fun _ => Except.ok 7)
        ([("x", 1)], ChildSeed.mk 5 [0]) none none none).kwargs "seed"
      = some (5 : Int) :=
  ⟨by decide,
   ((claim_C7_seed_injection ChildSeed.entropy (fun _ => Except.ok 7) [("x", 1)]
      (ChildSeed.mk 5 [0]) none none none preBenign_none).1 (by decide)).1,
   ((claim_C7_seed_injection ChildSeed.entropy (fun _ => Except.ok 7) [("x", 1)]
      (ChildSeed.mk 5 [0]) none none none preBenign_none).1 (by decide)).2⟩

/-- Claim C8: whenever a post hook is supplied to `_run_fn`, it is invoked
(exactly once) after the task body regardless of whether the task succeeded
or failed — `fn` and the pre hook are arbitrary here — and an error the post
hook raises is not caught: it escapes `_run_fn` as the `raised` outcome. -/
theorem claim_C8_post_hook {α ε : Type} (se : ChildSeed → α)
    (fn : Kwargs α → Except ε α) (args : Kwargs α × ChildSeed)
    (pre_fn : Option (ChildSeed → Except ε Unit)) (pf : Except ε Unit)
    (w : Option Nat) :
    (_run_fn se fn args pre_fn (some pf) w).postCalls = 1 ∧
    (∀ e, pf = Except.error e →
      (_run_fn se fn args pre_fn (some pf) w).raised = some e) := by
  refine ⟨rfl, ?_⟩
  intro e he
  subst he
  rfl

theorem claim_C8_post_hook_witness :
    (_run_fn (α := Nat) (ε := Unit) (fun _ => 0) (fun _ => Except.error ())
        ([], default) none (some (Except.error ())) none).postCalls = 1 ∧
    (_run_fn (α := Nat) (ε := Unit) (fun _ => 0) (fun _ => Except.error ())
        ([], default) none (some (Except.error ())) none).raised = some () :=
  ⟨(claim_C8_post_hook (fun _ => 0) (fun _ => Except.error ()) ([], default) none
      (Except.error ()) none).1,
   (claim_C8_post_hook (fun _ => 0) (fun _ => Except.error ()) ([], default) none
      (Except.error ()) none).2 () rfl⟩

/-- Claim C10 counterexample: in a call whose pre hook raises, the exception
is caught before the seed-injection line runs, so the mapping is NOT mutated:
after the call it still lacks a "seed" key, against the claim's "for every
call where the mapping lacks a seed key". -/
theorem claim_C10_counterexample :
    dictHas ([("x", 1)] : Kwargs Nat) "seed" = false ∧
    (_run_fn (α := Nat) (ε := Unit) (fun _ => 0) (fun _ => Except.ok 0)
        ([("x", 1)], default) (some (fun _ => Except.error ())) none none).kwargs
      = [("x", 1)] ∧
    dictHas ((_run_fn (α := Nat) (ε := Unit) (fun _ => 0) (fun _ => Except.ok 0)
        ([("x", 1)], default) (some (fun _ => Except.error ())) none none).kwargs)
        "seed" = false :=
  ⟨by decide, rfl, by decide⟩

/-- Claim C10 (amended): `_run_fn` mutates the kwargs mapping it is given in
place: in every call where the pre hook (if supplied) does not raise and the
mapping lacks a "seed" key, the derived seed is stored into the mapping; in
particular after `distributed_eval` with n_workers == 0 — which passes no pre
hook — every dictionary of the caller's kwargs_list that lacked a "seed" key
has gained one. -/
theorem claim_C10_kwargs_mutation {α ε : Type} (se : ChildSeed → α)
    (fn : Kwargs α → Except ε α) (kwargs_list : List (Kwargs α)) (seed : Option Int)
    (osEntropy : Int) :
    (∀ (fn2 : Kwargs α → Except ε α) (kwargs : Kwargs α) (sd : ChildSeed)
        (pre2 : Option (ChildSeed → Except ε Unit)) (post2 : Option (Except ε Unit))
        (w : Option Nat), preBenign pre2 → dictHas kwargs "seed" = false →
      (_run_fn se fn2 (kwargs, sd) pre2 post2 w).kwargs
        = kwargs ++ [("seed", se sd)]) ∧
    (∀ i, i < kwargs_list.length → dictHas (kwargs_list.getD i []) "seed" = false →
      (syncFinalKwargs se fn kwargs_list seed osEntropy).getD i []
        = kwargs_list.getD i [] ++ [("seed", se (childSeedAt seed osEntropy i))] ∧
      dictHas ((syncFinalKwargs se fn kwargs_list seed osEntropy).getD i []) "seed"
        = true) := by
  have hgen : ∀ (fn2 : Kwargs α → Except ε α) (kwargs : Kwargs α) (sd : ChildSeed)
      (pre2 : Option (ChildSeed → Except ε Unit)) (post2 : Option (Except ε Unit))
      (w : Option Nat), preBenign pre2 → dictHas kwargs "seed" = false →
      (_run_fn se fn2 (kwargs, sd) pre2 post2 w).kwargs
        = kwargs ++ [("seed", se sd)] := by
    intro fn2 kwargs sd pre2 post2 w hpre hh
    have h := run_fn_of_preBenign se fn2 kwargs sd pre2 post2 w hpre
    rw [h.2.2]
    simp [injectSeed, hh]
  refine ⟨hgen, ?_⟩
  intro i hi hh
  have hkw : (syncFinalKwargs se fn kwargs_list seed osEntropy).getD i []
      = (taskOutcome (ε := ε) se fn kwargs_list seed osEntropy none none 0
          (fun _ => 0) i).kwargs := by
    simp [syncFinalKwargs, List.getD, List.getElem?_map, List.getElem?_range, hi]
  have hmut := hgen fn (kwargs_list.getD i []) (childSeedAt seed osEntropy i) none none
    none preBenign_none hh
  rw [hkw, taskOutcome_eq se fn kwargs_list seed osEntropy none none 0 (fun _ => 0) i hi,
    if_pos rfl]
  constructor
  · exact hmut
  · rw [hmut]
    exact dictHas_append_self _ "seed" _

theorem claim_C10_kwargs_mutation_witness :
    (0 : Nat) < 1 ∧ dictHas ([("x", 1)] : Kwargs Int) "seed" = false ∧
    ((syncFinalKwargs (ε := Unit) ChildSeed.entropy (fun _ => Except.ok 7) [[("x", 1)]]
        (some 5) 0).getD 0 []
      = [("x", 1)] ++ [("seed", (5 : Int))] ∧
     dictHas ((syncFinalKwargs (ε := Unit) ChildSeed.entropy (fun _ => Except.ok 7)
        [[("x", 1)]] (some 5) 0).getD 0 []) "seed" = true) :=
  ⟨by decide, by decide,
   (claim_C10_kwargs_mutation ChildSeed.entropy (fun _ => Except.ok 7) [[("x", 1)]]
      (some 5) 0).2 0 (by decide) (by decide)⟩

end RpadCore
